import Mathlib

/-!
Verification development for the OnlineComicReader storage and ingestion
engine.  The definitions below are shallow embeddings of the TypeScript
source: IndexedDB object stores become association lists keyed by strings,
ArrayBuffer contents become lists of naturals, Date.now() becomes an
explicit clock parameter, and each storage method becomes a pure state
transformer.  Theorems check the specified properties against these
embeddings.
-/

namespace ComicReader

/-- Raw byte sequences: the contents of a JS ArrayBuffer or Blob. -/
abbrev Bytes := List Nat

/-- Lookup in an IndexedDB object store modelled as an association list
(first binding for the key wins; reachable stores have unique keys). -/
def alGet {α : Type} : List (String × α) → String → Option α
  | [], _ => none
  | (k, v) :: rest, key => if k = key then some v else alGet rest key

/-- IndexedDB put: replace the binding for the key, or append a new one. -/
def alPut {α : Type} : List (String × α) → String → α → List (String × α)
  | [], key, v => [(key, v)]
  | (k, w) :: rest, key, v =>
    if k = key then (key, v) :: rest else (k, w) :: alPut rest key v

/-- IndexedDB delete: remove every binding for the key. -/
def alDelete {α : Type} (l : List (String × α)) (key : String) :
    List (String × α) :=
  l.filter (fun kv => !(kv.1 == key))

theorem alGet_alPut_self {α : Type} (l : List (String × α)) (k : String) (v : α) :
    alGet (alPut l k v) k = some v := by
  induction l with
  | nil => simp [alPut, alGet]
  | cons kv rest ih =>
    by_cases h : kv.1 = k
    · simp [alPut, alGet, h]
    · simp [alPut, alGet, h, ih]

theorem alGet_alPut_ne {α : Type} (l : List (String × α)) (k k2 : String) (v : α)
    (h : k ≠ k2) : alGet (alPut l k v) k2 = alGet l k2 := by
  induction l with
  | nil => simp [alPut, alGet, h]
  | cons kv rest ih =>
    by_cases hk : kv.1 = k
    · simp [alPut, alGet, hk, h]
    · simp only [alPut, if_neg hk]
      by_cases hk2 : kv.1 = k2
      · simp [alGet, hk2]
      · simp [alGet, hk2, ih]

theorem alGet_alDelete_self {α : Type} (l : List (String × α)) (k : String) :
    alGet (alDelete l k) k = none := by
  induction l with
  | nil => simp [alDelete, alGet]
  | cons kv rest ih =>
    by_cases h : kv.1 = k
    · simpa [alDelete, h] using ih
    · simpa [alDelete, alGet, h] using ih

theorem alPut_keys_of_mem {α : Type} (l : List (String × α)) (k : String)
    (v w : α) (h : alGet l k = some w) :
    (alPut l k v).map Prod.fst = l.map Prod.fst := by
  induction l with
  | nil => simp [alGet] at h
  | cons kv rest ih =>
    by_cases hk : kv.1 = k
    · simp [alPut, hk]
    · simp only [alGet, if_neg hk] at h
      simp [alPut, hk, ih h]

/-- A legacy Blob value stored by very old records (comicStorage.ts field
fileData): its bytes and its MIME type string. -/
structure LegacyBlob where
  data : Bytes
  btype : String
deriving Repr, DecidableEq

/-- comicStorage.ts ComicRecord: the raw persisted shape in the comicFiles
store, with every field after id and filename optional. -/
structure ComicRecord where
  id : String
  filename : String
  fileBuffer : Option Bytes
  fileData : Option LegacyBlob
  mimeType : Option String
  uploadDate : Option Nat
  lastAccessed : Option Nat
  fileSize : Option Nat
  thumbnail : Option String
  version : Option Nat
  currentPage : Option Nat
  totalPages : Option Nat
  filter : Option String
deriving Repr, DecidableEq

/-- comicStorage.ts StoredComic: the normalized view returned by getComic. -/
structure StoredComic where
  id : String
  filename : String
  fileBuffer : Bytes
  mimeType : String
  uploadDate : Nat
  lastAccessed : Nat
  fileSize : Nat
  thumbnail : Option String
  currentPage : Nat
  totalPages : Nat
  filter : Option String
  title : String
  pages : List String
  lastRead : Nat
deriving Repr, DecidableEq

/-- types/comic.ts ComicBook: the metadata shape kept by the metadata store
and by the reader session (pages reduced to their filenames, as cleanPages
keeps only filename and index). -/
structure ComicBookM where
  id : String
  title : String
  filename : String
  pages : List String
  currentPage : Nat
  totalPages : Nat
  lastRead : Nat
  coverThumbnail : Option String
deriving Repr, DecidableEq

/-- A record of the comicPages store: key is comicId-pageIndex. -/
structure PageCacheEntry where
  key : String
  comicId : String
  pageIndex : Nat
  blob : Bytes
  cachedAt : Nat
deriving Repr, DecidableEq

/-- The stores managed by comicStorage.ts (ComicReaderFilesDB): comic files,
page cache and comic metadata.  The fileSystem store is not needed by the
claims about this manager. -/
structure StorageDB where
  comicFiles : List (String × ComicRecord)
  comicPages : List (String × PageCacheEntry)
  comicMetadata : List (String × ComicBookM)
deriving Repr, DecidableEq

/-- comicStorage.ts recordVersion. -/
def recordVersion : Nat := 2

/-- An uploaded file: name, raw bytes and reported MIME type.  Its size is
the byte count. -/
structure Upload where
  name : String
  bytes : Bytes
  mime : String
deriving Repr, DecidableEq

def Upload.size (f : Upload) : Nat := f.bytes.length

/-- comicStorage.ts generateId: the dedup key is the filename, a dash and
the decimal file size. -/
def generateId (filename : String) (fileSize : Nat) : String :=
  filename ++ "-" ++ toString fileSize

/-- The key under which saveComic checks for a duplicate of an upload. -/
def dedupKey (f : Upload) : String := generateId f.name f.size

/-- JS truthiness of an optional string (undefined and the empty string are
falsy). -/
def strFalsy : Option String → Bool
  | none => true
  | some s => s == ""

/-- JS truthiness of an optional number (undefined and 0 are falsy). -/
def natFalsy : Option Nat → Bool
  | none => true
  | some n => n == 0

/-- The mimeType fallback chain of normalizeRecord: record.mimeType, else
the legacy blob type, else application/octet-stream, skipping empty
strings like the JS or-chain does. -/
def mimeFallback (m : Option String) (fd : Option LegacyBlob) : String :=
  let fdMime : String :=
    match fd with
    | some lb => if lb.btype = "" then "application/octet-stream" else lb.btype
    | none => "application/octet-stream"
  match m with
  | some s => if s = "" then fdMime else s
  | none => fdMime

/-- The title computed by normalizeRecord: the filename with a final
dot-extension removed (JS regex replacing a final dot followed by one or
more characters none of which is a dot or slash). -/
def dropDotExt (s : String) : String :=
  let rev := s.data.reverse
  let ext := rev.takeWhile (fun c => !(c == '.') && !(c == '/'))
  match rev.drop ext.length with
  | '.' :: rest => if ext.isEmpty then s else String.mk rest.reverse
  | _ => s

/-- comicStorage.ts normalizeRecord: none when the record has no file data
at all; otherwise the normalized StoredComic view, the repaired record, and
whether the record changed (in which case the manager persists it). -/
def normalizeRecord (r : ComicRecord) (now : Nat) :
    Option (StoredComic × ComicRecord × Bool) :=
  let buf? : Option Bytes :=
    match r.fileBuffer with
    | some b => some b
    | none => match r.fileData with
      | some lb => some lb.data
      | none => none
  match buf? with
  | none => none
  | some buf =>
    let migratedBuffer : Bool := r.fileBuffer.isNone
    let mimeType := mimeFallback r.mimeType r.fileData
    let uploadDate := r.uploadDate.getD now
    let lastAccessed := r.lastAccessed.getD uploadDate
    let fileSize := r.fileSize.getD
      (match r.fileData with
       | some lb => lb.data.length
       | none => buf.length)
    let currentPage := r.currentPage.getD 0
    let totalPages := r.totalPages.getD 0
    let updated : Bool := migratedBuffer
      || !(r.mimeType == some mimeType)
      || !(r.uploadDate == some uploadDate)
      || !(r.lastAccessed == some lastAccessed)
      || !(r.fileSize == some fileSize)
      || !(r.currentPage == some currentPage)
      || !(r.totalPages == some totalPages)
      || !(r.version == some recordVersion)
    let r1 : ComicRecord :=
      { r with fileBuffer := some buf, mimeType := some mimeType,
               uploadDate := some uploadDate, lastAccessed := some lastAccessed,
               fileSize := some fileSize, currentPage := some currentPage,
               totalPages := some totalPages, version := some recordVersion }
    let r2 : ComicRecord :=
      if updated && r1.fileData.isSome then { r1 with fileData := none } else r1
    let view : StoredComic :=
      { id := r.id, filename := r.filename, fileBuffer := buf,
        mimeType := mimeType, uploadDate := uploadDate,
        lastAccessed := lastAccessed, fileSize := fileSize,
        thumbnail := r.thumbnail, currentPage := currentPage,
        totalPages := totalPages, filter := r.filter,
        title := dropDotExt r.filename, pages := [], lastRead := lastAccessed }
    some (view, r2, updated)

/-- comicStorage.ts getComic: read the record, normalize it, persist the
repair when the record changed; returns the view and the updated store. -/
def getComic (id : String) (now : Nat) (db : StorageDB) :
    Option StoredComic × StorageDB :=
  match alGet db.comicFiles id with
  | none => (none, db)
  | some r =>
    match normalizeRecord r now with
    | none => (none, db)
    | some (v, r2, upd) =>
      (some v,
       if upd then { db with comicFiles := alPut db.comicFiles r2.id r2 } else db)

/-- comicStorage.ts updateLastAccessed: bump lastAccessed (and optionally
currentPage and totalPages) of an existing record; silently resolve
without touching the store when the id has no record. -/
def updateLastAccessed (id : String) (dataCurrentPage : Option Nat)
    (dataTotalPages : Option Nat) (now : Nat) (db : StorageDB) : StorageDB :=
  match alGet db.comicFiles id with
  | none => db
  | some r =>
    let r1 : ComicRecord :=
      { r with lastAccessed := some now,
               currentPage :=
                 match dataCurrentPage with
                 | some cp => some cp
                 | none => r.currentPage,
               totalPages :=
                 match dataTotalPages with
                 | some tp => some tp
                 | none => r.totalPages,
               version := some recordVersion }
    { db with comicFiles := alPut db.comicFiles id r1 }

/-- comicStorage.ts updateProgress: delegates to updateLastAccessed. -/
def updateProgress (id : String) (currentPage : Nat) (totalPages : Option Nat)
    (now : Nat) (db : StorageDB) : StorageDB :=
  updateLastAccessed id (some currentPage) totalPages now db

/-- comicStorage.ts saveComic: compute the generateId key, reuse the
existing record when present (only refreshing lastAccessed), else persist
a fresh version-2 record. -/
def saveComic (file : Upload) (thumbnail : Option String) (currentPage : Nat)
    (totalPages : Option Nat) (now : Nat) (db : StorageDB) :
    String × StorageDB :=
  let id := generateId file.name file.size
  match getComic id now db with
  | (some _, db1) => (id, updateLastAccessed id none none now db1)
  | (none, db1) =>
    let mimeType := if file.mime = "" then "application/octet-stream" else file.mime
    let record : ComicRecord :=
      { id := id, filename := file.name, fileBuffer := some file.bytes,
        fileData := none, mimeType := some mimeType, uploadDate := some now,
        lastAccessed := some now, fileSize := some file.size,
        thumbnail := thumbnail, currentPage := some currentPage,
        totalPages := some (totalPages.getD 0), filter := none,
        version := some recordVersion }
    (id, { db1 with comicFiles := alPut db1.comicFiles id record })

/-- comicStorage.ts deleteComic: a single delete against the comicFiles
store; the page cache, metadata store and any blob bookkeeping are not
touched. -/
def deleteComic (id : String) (db : StorageDB) : StorageDB :=
  { db with comicFiles := alDelete db.comicFiles id }

/-- comicStorage.ts saveComicMetadata: put the ComicBook into the metadata
store under its id. -/
def saveComicMetadata (comic : ComicBookM) (db : StorageDB) : StorageDB :=
  { db with comicMetadata := alPut db.comicMetadata comic.id comic }

/-- Modelled from the spec: getComicMetadata, the metadata-store read used
by comicProcessor.ts and the library pages, is absent from the sources
(only its callers and saveComicMetadata appear); the spec keys the
Metadata store by comic id, so the read is a lookup by id. -/
def getComicMetadata (id : String) (db : StorageDB) : Option ComicBookM :=
  alGet db.comicMetadata id

/-- comicStorage.ts needsMigration test inside migrateLegacyRecords, with
JS truthiness: a missing buffer, a falsy mimeType, a falsy fileSize or a
stale version flags the record. -/
def needsMigration (r : ComicRecord) : Bool :=
  r.fileBuffer.isNone || strFalsy r.mimeType || natFalsy r.fileSize
    || !(r.version == some recordVersion)

/-- One cursor step of migrateLegacyRecords: records flagged by
needsMigration are normalized, and the repaired record is persisted when
normalizeRecord reports a change. -/
def migrateEntry (now : Nat) (kv : String × ComicRecord) :
    String × ComicRecord :=
  if needsMigration kv.2 then
    match normalizeRecord kv.2 now with
    | some (_, r2, true) => (kv.1, r2)
    | _ => kv
  else kv

/-- comicStorage.ts migrateLegacyRecords: the cursor pass run by init over
every record of the comicFiles store. -/
def migrateLegacyRecords (now : Nat) (db : StorageDB) : StorageDB :=
  { db with comicFiles := db.comicFiles.map (migrateEntry now) }

/-! Reader page cache (routes/reader page and the IndexedDBStore). -/

/-- The composite page-cache key comicId-pageIndex used by savePageBlob and
getPageBlob in both storage managers. -/
def pageKey (comicId : String) (pageIndex : Nat) : String :=
  comicId ++ "-" ++ toString pageIndex

/-- An in-session comic page: filename plus the lazily loaded blob. -/
structure PageM where
  filename : String
  blob : Option Bytes
deriving Repr, DecidableEq

/-- The reader state relevant to page extraction: the pages array of the
open comic and the pages object store of the IndexedDBStore. -/
structure ReaderSession where
  pages : List PageM
  cache : List (String × PageCacheEntry)
deriving Repr, DecidableEq

/-- Result of one onExtractPage call: the returned blob (none models the
thrown page-not-found error), how many archive extractions ran, and the
updated session. -/
structure ExtractResult where
  blob : Option Bytes
  extractions : Nat
  session : ReaderSession
deriving Repr, DecidableEq

/-- reader page onExtractPage: return the cached blob on a cache hit; on a
miss load the page from the archive unless its blob is already in memory,
store the bytes under the composite key, and return them.  The parameter
ext gives the bytes the archive extraction yields for an index. -/
def onExtractPage (ext : Nat → Bytes) (comicId : String) (i : Nat) (now : Nat)
    (s : ReaderSession) : ExtractResult :=
  match alGet s.cache (pageKey comicId i) with
  | some e => { blob := some e.blob, extractions := 0, session := s }
  | none =>
    match s.pages.get? i with
    | none => { blob := none, extractions := 0, session := s }
    | some p =>
      let loaded : Bytes × Nat × List PageM :=
        match p.blob with
        | some b => (b, 0, s.pages)
        | none => (ext i, 1, s.pages.set i { p with blob := some (ext i) })
      let entry : PageCacheEntry :=
        { key := pageKey comicId i, comicId := comicId, pageIndex := i,
          blob := loaded.1, cachedAt := now }
      { blob := some loaded.1, extractions := loaded.2.1,
        session := { pages := loaded.2.2,
                     cache := alPut s.cache (pageKey comicId i) entry } }

/-- reader page currentPageIndex subscription (and saveProgress): set the
session comic's currentPage and lastRead, save the clone through the
IndexedDBStore comics store, then updateProgress through comicStorage. -/
def readerPageSubscription (c : ComicBookM) (i : Nat) (now : Nat)
    (readerComics : List (String × ComicBookM)) (sdb : StorageDB) :
    ComicBookM × List (String × ComicBookM) × StorageDB :=
  let c1 := { c with currentPage := i, lastRead := now }
  (c1, alPut readerComics c1.id c1,
   updateProgress c1.id i (some c1.totalPages) now sdb)

/-! Ingestion orchestrator (comicProcessor.ts handleFile). -/

/-- types/comic.ts FileSystemItem: a library entry of the file-system
store, keyed by id and carrying the content hash of its blob. -/
structure FSItem where
  id : String
  name : String
  contentHash : Bytes
  size : Nat
  mimeType : String
  thumbnail : Option String
  createdAt : Nat
  updatedAt : Nat
deriving Repr, DecidableEq

/-- Modelled from the spec: the content digest used as the dedup key by the
file-system storage manager, whose implementation is absent from the
sources (only the BlobRecord and FileSystemItem declarations and the
comicProcessor.ts call sites remain).  The spec requires a deterministic,
collision-resistant digest of the raw bytes; it is modelled as an
injective function of the bytes. -/
def hashBytes (b : Bytes) : Bytes := b

/-- Modelled from the spec: findDuplicate, called by comicProcessor.ts but
absent from the sources, looks an Item up by the content hash of the
uploaded bytes via the contentHash index. -/
def findDuplicate (items : List FSItem) (f : Upload) : Option FSItem :=
  items.find? (fun it => it.contentHash == hashBytes f.bytes)

/-- State seen by the ingestion orchestrator: the file-system items with
their ref-counted blob map, a fresh-id counter, and the comicStorage
stores. -/
structure ProcState where
  items : List FSItem
  blobs : Bytes → Option Int
  nextId : Nat
  storage : StorageDB

/-- Modelled from the spec: Blob Store put - increment the refCount of an
existing record for the hash, else insert one with refCount 1. -/
def blobPut (m : Bytes → Option Int) (h : Bytes) : Bytes → Option Int :=
  fun h2 =>
    if h2 = h then
      match m h with
      | some n => some (n + 1)
      | none => some 1
    else m h2

/-- Modelled from the spec: Blob Store release - decrement the refCount and
delete the record when it reaches zero. -/
def blobRelease (m : Bytes → Option Int) (h : Bytes) : Bytes → Option Int :=
  fun h2 =>
    if h2 = h then
      match m h with
      | some n => if n - 1 = 0 then none else some (n - 1)
      | none => none
    else m h2

/-- Modelled from the spec: saveFile, called by comicProcessor.ts but
absent from the sources, stores the physical blob with deduplication:
reuse the item found by content hash, else put the blob and persist a
fresh item. -/
def saveFile (f : Upload) (thumbnail : Option String) (now : Nat)
    (s : ProcState) : FSItem × ProcState :=
  match findDuplicate s.items f with
  | some it => (it, s)
  | none =>
    let h := hashBytes f.bytes
    let it : FSItem :=
      { id := "fs-" ++ toString s.nextId, name := f.name, contentHash := h,
        size := f.size, mimeType := f.mime, thumbnail := thumbnail,
        createdAt := now, updatedAt := now }
    (it, { s with items := it :: s.items, blobs := blobPut s.blobs h,
                  nextId := s.nextId + 1 })

/-- The archive extension allow-list check of archiveManager.isSupported:
the lowercased filename ends with .cbz, .zip, .cbr or .rar. -/
def isSupported (filename : String) : Bool :=
  let fn := filename.data.map Char.toLower
  (".cbz".data.isSuffixOf fn) || (".zip".data.isSuffixOf fn)
    || (".cbr".data.isSuffixOf fn) || (".rar".data.isSuffixOf fn)

/-- comicProcessor.ts title computation: strip a final archive extension
from the filename, case-insensitively. -/
def stripArchiveExt (s : String) : String :=
  if isSupported s then String.mk (s.data.take (s.data.length - 4)) else s

/-- Distinct outcomes of handleFile as observed by the UI. -/
inductive ProcOutcome where
  | unsupported
  | emptyArchive
  | openedExisting (id : String)
  | openedNew (id : String)
deriving Repr, DecidableEq

/-- Result of a handleFile run: the final state, how many times openArchive
parsed the container, and the outcome. -/
structure ProcResult where
  state : ProcState
  parses : Nat
  outcome : ProcOutcome

/-- comicProcessor.ts fresh-comic path: parse the archive, fail distinctly
on zero pages with nothing persisted, else save the file (dedup blob
store) and the reader metadata. -/
def processNewComic (arch : Bytes → List String) (thumb : Option String)
    (f : Upload) (now : Nat) (s : ProcState) : ProcResult :=
  let pages := arch f.bytes
  if pages.length = 0 then
    { state := s, parses := 1, outcome := .emptyArchive }
  else
    let saved := saveFile f thumb now s
    let comic : ComicBookM :=
      { id := saved.1.id, title := stripArchiveExt f.name, filename := f.name,
        pages := pages, currentPage := 0, totalPages := pages.length,
        lastRead := now, coverThumbnail := thumb }
    { state := { saved.2 with storage := saveComicMetadata comic saved.2.storage },
      parses := 1, outcome := .openedNew saved.1.id }

/-- comicProcessor.ts handleFile: reject unsupported extensions, then run
the dedup lookup; on a hit with stored metadata reuse the existing item,
but re-parse the archive to backfill a missing page count; otherwise
process the upload as a fresh comic. -/
def handleFile (arch : Bytes → List String) (thumb : Option String)
    (f : Upload) (now : Nat) (s : ProcState) : ProcResult :=
  if isSupported f.name = false then
    { state := s, parses := 0, outcome := .unsupported }
  else
    match findDuplicate s.items f with
    | some item =>
      match getComicMetadata item.id s.storage with
      | some comic =>
        if comic.totalPages = 0 then
          let pages := arch f.bytes
          let comic1 := { comic with totalPages := pages.length, pages := pages }
          let st1 := saveComicMetadata comic1 s.storage
          let st2 := updateLastAccessed item.id (some comic1.currentPage)
            (some comic1.totalPages) now st1
          { state := { s with storage := st2 }, parses := 1,
            outcome := .openedExisting item.id }
        else
          let st2 := updateLastAccessed item.id (some comic.currentPage)
            (some comic.totalPages) now s.storage
          { state := { s with storage := st2 }, parses := 0,
            outcome := .openedExisting item.id }
      | none => processNewComic arch thumb f now s
    | none => processNewComic arch thumb f now s

/-! Content-addressable library with reference counting.  Modelled from the
spec: the Blob Store implementation (put, release) and its coupling to
Item creation and removal are absent from the sources - only the
BlobRecord declaration in types/comic.ts remains - so the ingest and
delete operations below follow the spec's Blob Store and Ingestion
Orchestrator sections. -/

/-- The library state: items as id-to-contentHash pairs, the ref-counted
blob map, and a counter generating fresh opaque item ids. -/
structure Library where
  items : List (String × Bytes)
  blobs : Bytes → Option Int
  nextId : Nat

/-- The empty library. -/
def initLibrary : Library :=
  { items := [], blobs := fun _ => none, nextId := 0 }

/-- One user-level operation against the library. -/
inductive CASOp where
  | ingest (content : Bytes)
  | remove (id : String)

/-- How many items reference a given content hash. -/
def countRefs : List (String × Bytes) → Bytes → Nat
  | [], _ => 0
  | it :: rest, h => (if it.2 = h then 1 else 0) + countRefs rest h

/-- Remove the item with the given id, returning its content hash and the
remaining items; none when no item has the id. -/
def removeItem : List (String × Bytes) → String → Option (Bytes × List (String × Bytes))
  | [], _ => none
  | it :: rest, id =>
    if it.1 = id then some (it.2, rest)
    else
      match removeItem rest id with
      | none => none
      | some (h, rest1) => some (h, it :: rest1)

/-- Modelled from the spec: one ingest or delete against the library.
Ingest hashes the content, returns the existing item unchanged on a dedup
hit, else inserts a fresh item and puts the blob; delete removes the item
and releases its hash. -/
def casStep (s : Library) : CASOp → Library
  | .ingest content =>
    let h := hashBytes content
    if (s.items.find? (fun it => it.2 == h)).isSome then s
    else
      { items := (toString s.nextId, h) :: s.items,
        blobs := blobPut s.blobs h, nextId := s.nextId + 1 }
  | .remove id =>
    match removeItem s.items id with
    | none => s
    | some (h, items1) =>
      { s with items := items1, blobs := blobRelease s.blobs h }

/-- Run a sequence of ingest and delete operations. -/
def casRun (ops : List CASOp) (s : Library) : Library :=
  ops.foldl casStep s

/-- The refcount conservation invariant: every persisted blob record holds
exactly the number of items referencing its hash and at least one; a hash
with no record has no referencing item. -/
def BlobInvariant (s : Library) : Prop :=
  ∀ h : Bytes,
    (∀ n : Int, s.blobs h = some n → n = (countRefs s.items h : Int) ∧ 1 ≤ n) ∧
    (s.blobs h = none → countRefs s.items h = 0)

/-! Natural filename ordering (archiveManager.ts openArchive). -/

/-- One collation token: a maximal digit run kept as its digit characters,
or a single case-folded character. -/
inductive NatTok where
  | num (ds : List Char)
  | sym (c : Char)
deriving Repr, DecidableEq

/-- Numeric value of a decimal digit character. -/
def digitVal (c : Char) : Nat := c.toNat - '0'.toNat

/-- Numeric value of a digit run. -/
def digitsVal (ds : List Char) : Nat :=
  ds.foldl (fun a c => a * 10 + digitVal c) 0

/-- Tokenize a character list for numeric-aware, case-insensitive
comparison, as localeCompare with the numeric option and base sensitivity
does: maximal digit runs become one numeric token, other characters are
case-folded. -/
def tokenize : List Char → List NatTok
  | [] => []
  | c :: rest =>
    let ts := tokenize rest
    if c.isDigit then
      match ts with
      | NatTok.num ds :: toks => NatTok.num (c :: ds) :: toks
      | _ => NatTok.num [c] :: ts
    else NatTok.sym c.toLower :: ts

/-- Compare two collation tokens: digit runs at their numeric value,
characters by code point, digit runs before other characters. -/
def tokCmp : NatTok → NatTok → Ordering
  | .num a, .num b => compare (digitsVal a) (digitsVal b)
  | .num _, .sym _ => .lt
  | .sym _, .num _ => .gt
  | .sym a, .sym b => compare a.toNat b.toNat

/-- Lexicographic comparison of token lists. -/
def toksCmp : List NatTok → List NatTok → Ordering
  | [], [] => .eq
  | [], _ :: _ => .lt
  | _ :: _, [] => .gt
  | a :: as, b :: bs =>
    match tokCmp a b with
    | .eq => toksCmp as bs
    | o => o

/-- The natural filename comparator used by openArchive's sort. -/
def naturalCompare (a b : String) : Ordering :=
  toksCmp (tokenize a.data) (tokenize b.data)

/-- The sort's non-strict order: the comparator does not say greater. -/
def naturalLe (a b : String) : Bool :=
  !(naturalCompare a b == Ordering.gt)

/-- The non-strict natural order, as a relation. -/
def NaturalLeP (a b : String) : Prop := naturalLe a b = true

instance : DecidableRel NaturalLeP := fun _ _ => instDecidableEqBool _ _

/-- archiveManager.ts entry sort by the natural filename comparator: a
stable comparison sort under the comparator, modelled as insertion sort. -/
def sortByFilename (l : List String) : List String :=
  List.insertionSort NaturalLeP l

/-- archiveManager.ts isImageFile: the lowercased extension taken from the
last dot (with the JS slice quirk of taking the final character when no
dot exists) must be an allow-listed image extension. -/
def isImageFile (filename : String) : Bool :=
  let ls := filename.data.map Char.toLower
  let rev := ls.reverse
  let afterDot := rev.takeWhile (fun c => !(c == '.'))
  let ext : List Char :=
    if afterDot.length = rev.length then rev.take 1 |>.reverse
    else '.' :: afterDot.reverse
  (ext == ".jpg".data) || (ext == ".jpeg".data) || (ext == ".png".data)
    || (ext == ".gif".data) || (ext == ".bmp".data) || (ext == ".webp".data)

/-- archiveManager.ts openArchive restricted to its entry-name processing:
keep the image entries of the flattened recursive walk and sort them by
the natural filename comparator. -/
def openArchive (entryNames : List String) : List String :=
  sortByFilename (entryNames.filter isImageFile)

/-! Claim C1: the upload dedup key. -/

/-- C1 counterexample: saveComic's dedup key (generateId) is not a digest
of the raw bytes alone.  Two byte-identical uploads under different names
receive different keys, and two uploads with different bytes but equal
name and size receive the same key. -/
theorem dedupKey_not_content_digest :
    (Upload.mk "a.cbz" [1, 2, 3] "").bytes = (Upload.mk "b.cbz" [1, 2, 3] "").bytes ∧
    dedupKey (Upload.mk "a.cbz" [1, 2, 3] "") ≠ dedupKey (Upload.mk "b.cbz" [1, 2, 3] "") ∧
    (Upload.mk "a.cbz" [1, 2, 3] "").bytes ≠ (Upload.mk "a.cbz" [9, 9, 9] "").bytes ∧
    dedupKey (Upload.mk "a.cbz" [1, 2, 3] "") = dedupKey (Upload.mk "a.cbz" [9, 9, 9] "") := by
  refine ⟨rfl, by decide, by decide, rfl⟩

/-- C1 (amended): the key used to detect duplicate uploads is the string
filename-size produced by generateId.  It is deterministic and depends on
the upload only through its filename and reported size, so uploads with
equal filename and size map to the same key independently of their
content bytes, and saveComic stores and dedups under exactly this key. -/
theorem dedupKey_determined_by_name_and_size (f g : Upload)
    (hname : f.name = g.name) (hsize : f.size = g.size) :
    dedupKey f = generateId f.name f.size ∧
    dedupKey f = dedupKey g ∧
    ∀ (thumbnail : Option String) (cp : Nat) (tp : Option Nat) (now : Nat)
      (db : StorageDB), (saveComic f thumbnail cp tp now db).1 = dedupKey f := by
  refine ⟨rfl, ?_, ?_⟩
  · simp [dedupKey, generateId, hname, hsize]
  · intro th cp tp now db
    unfold saveComic
    rcases hg : getComic (generateId f.name f.size) now db with ⟨v, db1⟩
    simp only [hg]
    cases v <;> rfl

/-- C1 witness: the amended statement at two concrete uploads sharing name
and size but not bytes. -/
theorem dedupKey_determined_by_name_and_size_witness :
    dedupKey (Upload.mk "a.cbz" [1, 2, 3] "") = dedupKey (Upload.mk "a.cbz" [9, 9, 9] "") :=
  (dedupKey_determined_by_name_and_size
    (Upload.mk "a.cbz" [1, 2, 3] "") (Upload.mk "a.cbz" [9, 9, 9] "") rfl rfl).2.1

/-! Claim C3: the deletion cascade. -/

/-- Sample comic record used by the deletion counterexample. -/
def delSampleRecord : ComicRecord :=
  { id := "c", filename := "c.cbz", fileBuffer := some [1, 2], fileData := none,
    mimeType := some "application/zip", uploadDate := some 10,
    lastAccessed := some 11, fileSize := some 2, thumbnail := none,
    version := some 2, currentPage := some 0, totalPages := some 3,
    filter := none }

/-- Sample metadata record used by the deletion counterexample. -/
def delSampleMeta : ComicBookM :=
  { id := "c", title := "c", filename := "c.cbz", pages := ["p1.jpg"],
    currentPage := 0, totalPages := 3, lastRead := 11, coverThumbnail := none }

/-- Sample page-cache entry used by the deletion counterexample. -/
def delSamplePage : PageCacheEntry :=
  { key := "c-0", comicId := "c", pageIndex := 0, blob := [9], cachedAt := 12 }

/-- Sample store used by the deletion counterexample. -/
def delSampleDB : StorageDB :=
  { comicFiles := [("c", delSampleRecord)],
    comicPages := [("c-0", delSamplePage)],
    comicMetadata := [("c", delSampleMeta)] }

/-- C3 counterexample: deleting comic c removes its Item record but leaves
its Metadata record and its page-cache entry with comicId c in place, so
they are not absent as the claim requires (and this manager has no blob
refCount to decrement at all). -/
theorem deleteComic_no_cascade :
    alGet (deleteComic "c" delSampleDB).comicFiles "c" = none ∧
    alGet (deleteComic "c" delSampleDB).comicMetadata "c" = some delSampleMeta ∧
    alGet (deleteComic "c" delSampleDB).comicPages "c-0" = some delSamplePage := by
  refine ⟨by decide, by decide, by decide⟩

/-- C3 (amended as the counterexample forces): after deleteComic id the
comic's record is absent from the comicFiles store, but the page-cache and
metadata stores are left entirely unchanged; no blob reference counting
exists in this manager, so no refCount changes. -/
theorem deleteComic_only_removes_item (id : String) (db : StorageDB) :
    alGet (deleteComic id db).comicFiles id = none ∧
    (deleteComic id db).comicPages = db.comicPages ∧
    (deleteComic id db).comicMetadata = db.comicMetadata :=
  ⟨alGet_alDelete_self _ _, rfl, rfl⟩

/-! Claim C10: progress updates for ids with no record. -/

/-- C10: for an id with no record in the comics store, updateProgress and
its underlying updateLastAccessed resolve as silent no-ops: no record is
created and the store is returned entirely unchanged. -/
theorem updateProgress_missing_id_noop (id : String) (cp : Nat)
    (tp : Option Nat) (now : Nat) (db : StorageDB)
    (h : alGet db.comicFiles id = none) :
    updateProgress id cp tp now db = db ∧
    updateLastAccessed id (some cp) tp now db = db ∧
    updateLastAccessed id none none now db = db := by
  refine ⟨?_, ?_, ?_⟩ <;> simp [updateProgress, updateLastAccessed, h]

/-- C10 witness: a concrete empty store and ghost id. -/
theorem updateProgress_missing_id_noop_witness :
    updateProgress "ghost" 5 none 99 (StorageDB.mk [] [] []) = StorageDB.mk [] [] [] :=
  (updateProgress_missing_id_noop "ghost" 5 none 99 (StorageDB.mk [] [] []) (by decide)).1

/-! Claim C8: resume-reading progress persisted on page resolution. -/

/-- C8: when the reader resolves page i of comic c, the page subscription
persists currentPage = i and lastRead = now in the IndexedDBStore comics
record, and the comicFiles record is updated so that any later getComic
returns a view resuming at currentPage = i with lastRead = now. -/
theorem readerPageSubscription_persists_progress (c : ComicBookM) (i now : Nat)
    (readerComics : List (String × ComicBookM)) (sdb : StorageDB)
    (r : ComicRecord) (buf : Bytes)
    (hr : alGet sdb.comicFiles c.id = some r) (hbuf : r.fileBuffer = some buf) :
    (alGet (readerPageSubscription c i now readerComics sdb).2.1 c.id).map
      (fun m => (m.currentPage, m.lastRead)) = some (i, now) ∧
    ∀ later : Nat,
      ((getComic c.id later (readerPageSubscription c i now readerComics sdb).2.2).1).map
        (fun v => (v.currentPage, v.lastRead)) = some (i, now) := by
  constructor
  · simp [readerPageSubscription, alGet_alPut_self]
  · intro later
    simp only [readerPageSubscription, updateProgress, updateLastAccessed, hr]
    simp [getComic, alGet_alPut_self, normalizeRecord, hbuf]

/-- C8 witness: a concrete comic, store and page resolution. -/
theorem readerPageSubscription_persists_progress_witness :
    (alGet (readerPageSubscription
        (ComicBookM.mk "c" "c" "c.cbz" ["p1.jpg"] 0 3 11 none) 2 55
        [] (StorageDB.mk [("c", delSampleRecord)] [] [])).2.1 "c").map
      (fun m => (m.currentPage, m.lastRead)) = some (2, 55) ∧
    ((getComic "c" 77 (readerPageSubscription
        (ComicBookM.mk "c" "c" "c.cbz" ["p1.jpg"] 0 3 11 none) 2 55
        [] (StorageDB.mk [("c", delSampleRecord)] [] [])).2.2).1).map
      (fun v => (v.currentPage, v.lastRead)) = some (2, 55) :=
  ⟨(readerPageSubscription_persists_progress
      (ComicBookM.mk "c" "c" "c.cbz" ["p1.jpg"] 0 3 11 none) 2 55 []
      (StorageDB.mk [("c", delSampleRecord)] [] []) delSampleRecord [1, 2]
      (by decide) (by decide)).1,
   (readerPageSubscription_persists_progress
      (ComicBookM.mk "c" "c" "c.cbz" ["p1.jpg"] 0 3 11 none) 2 55 []
      (StorageDB.mk [("c", delSampleRecord)] [] []) delSampleRecord [1, 2]
      (by decide) (by decide)).2 77⟩

/-! Claim C5: page-cache correctness. -/

/-- C5: the first onExtractPage for comic c and index i (empty cache slot,
page not yet loaded) performs exactly one extraction, stores the bytes
under the composite key comicId-pageIndex, and returns them; a repeated
call with the same arguments returns the identical bytes with zero
further extractions. -/
theorem onExtractPage_cache_correct (ext : Nat → Bytes) (comicId : String)
    (i now later : Nat) (s : ReaderSession) (p : PageM)
    (hmiss : alGet s.cache (pageKey comicId i) = none)
    (hp : s.pages.get? i = some p) (hblob : p.blob = none) :
    (onExtractPage ext comicId i now s).extractions = 1 ∧
    (onExtractPage ext comicId i now s).blob = some (ext i) ∧
    (alGet (onExtractPage ext comicId i now s).session.cache
        (pageKey comicId i)).map PageCacheEntry.blob = some (ext i) ∧
    (onExtractPage ext comicId i later
        (onExtractPage ext comicId i now s).session).extractions = 0 ∧
    (onExtractPage ext comicId i later
        (onExtractPage ext comicId i now s).session).blob = some (ext i) := by
  have h1 : onExtractPage ext comicId i now s =
      { blob := some (ext i), extractions := 1,
        session :=
          { pages := s.pages.set i { p with blob := some (ext i) },
            cache := alPut s.cache (pageKey comicId i)
              { key := pageKey comicId i, comicId := comicId, pageIndex := i,
                blob := ext i, cachedAt := now } } } := by
    have hp2 : s.pages[i]? = some p := by rw [← List.get?_eq_getElem?]; exact hp
    simp [onExtractPage, hmiss, hp2, hblob]
  refine ⟨by rw [h1], by rw [h1], ?_, ?_, ?_⟩
  · rw [h1]; simp [alGet_alPut_self]
  · rw [h1]; simp [onExtractPage, alGet_alPut_self]
  · rw [h1]; simp [onExtractPage, alGet_alPut_self]

/-- C5 witness: one-page session with an empty cache, extracted twice. -/
theorem onExtractPage_cache_correct_witness :
    (onExtractPage (fun _ => [4, 5]) "c" 0 7
      (ReaderSession.mk [PageM.mk "p1.jpg" none] [])).extractions = 1 ∧
    (onExtractPage (fun _ => [4, 5]) "c" 0 9
      (onExtractPage (fun _ => [4, 5]) "c" 0 7
        (ReaderSession.mk [PageM.mk "p1.jpg" none] [])).session).blob = some [4, 5] := by
  have h := onExtractPage_cache_correct (fun _ => [4, 5]) "c" 0 7 9
    (ReaderSession.mk [PageM.mk "p1.jpg" none] []) (PageM.mk "p1.jpg" none)
    (by decide) (by decide) (by decide)
  exact ⟨h.1, h.2.2.2.2⟩

/-! Claims C7 and C4: ingestion failure modes and the dedup fast path. -/

/-- updateLastAccessed never creates a record and touches only the
comicFiles store: the key set is preserved and the other stores are
returned unchanged. -/
theorem updateLastAccessed_frame (id : String) (dcp dtp : Option Nat)
    (now : Nat) (db : StorageDB) :
    (updateLastAccessed id dcp dtp now db).comicFiles.map Prod.fst =
      db.comicFiles.map Prod.fst ∧
    (updateLastAccessed id dcp dtp now db).comicPages = db.comicPages ∧
    (updateLastAccessed id dcp dtp now db).comicMetadata = db.comicMetadata := by
  unfold updateLastAccessed
  cases hg : alGet db.comicFiles id with
  | none => exact ⟨rfl, rfl, rfl⟩
  | some r => exact ⟨alPut_keys_of_mem _ _ _ _ hg, rfl, rfl⟩

/-- C7: an upload whose extension is not allow-listed fails as a distinct
unsupported-format condition with the state untouched; a supported,
non-duplicate upload whose archive opens to zero qualifying images fails
as a distinct empty-archive condition, also with the state untouched; the
two conditions differ. -/
theorem handleFile_fails_without_persisting (arch : Bytes → List String)
    (thumb : Option String) (f : Upload) (now : Nat) (s : ProcState) :
    (isSupported f.name = false →
      handleFile arch thumb f now s = ⟨s, 0, .unsupported⟩) ∧
    (isSupported f.name = true → findDuplicate s.items f = none →
      arch f.bytes = [] →
      handleFile arch thumb f now s = ⟨s, 1, .emptyArchive⟩) ∧
    ProcOutcome.unsupported ≠ ProcOutcome.emptyArchive := by
  refine ⟨?_, ?_, by decide⟩
  · intro h
    simp [handleFile, h]
  · intro h1 h2 h3
    simp [handleFile, h1, h2, processNewComic, h3]

/-- C7 witness: a txt upload is rejected as unsupported, and a cbz upload
with an image-free archive is rejected as an empty archive, both leaving
the empty state unchanged. -/
theorem handleFile_fails_without_persisting_witness :
    handleFile (fun _ => ["p"]) none (Upload.mk "x.txt" [1] "") 0
      (ProcState.mk [] (fun _ => none) 0 (StorageDB.mk [] [] [])) =
      ⟨ProcState.mk [] (fun _ => none) 0 (StorageDB.mk [] [] []), 0, .unsupported⟩ ∧
    handleFile (fun _ => []) none (Upload.mk "x.cbz" [1] "") 0
      (ProcState.mk [] (fun _ => none) 0 (StorageDB.mk [] [] [])) =
      ⟨ProcState.mk [] (fun _ => none) 0 (StorageDB.mk [] [] []), 1, .emptyArchive⟩ :=
  ⟨(handleFile_fails_without_persisting _ _ _ _ _).1 (by decide),
   (handleFile_fails_without_persisting _ _ _ _ _).2.1 (by decide) (by decide) rfl⟩

/-- File-system item used by the duplicate-hit counterexample. -/
def dupSampleItem : FSItem :=
  { id := "i1", name := "dup.cbz", contentHash := [7], size := 1,
    mimeType := "", thumbnail := none, createdAt := 1, updatedAt := 1 }

/-- Stored metadata whose page count was never recorded (legacy record). -/
def dupSampleMeta : ComicBookM :=
  { id := "i1", title := "dup", filename := "dup.cbz", pages := [],
    currentPage := 0, totalPages := 0, lastRead := 1, coverThumbnail := none }

/-- Orchestrator state holding the duplicate item and its legacy metadata. -/
def dupSampleState : ProcState :=
  { items := [dupSampleItem], blobs := fun _ => none, nextId := 1,
    storage := StorageDB.mk [] [] [("i1", dupSampleMeta)] }

/-- C4 counterexample: on a dedup hit whose stored metadata has no page
count, handleFile parses the archive once and rewrites the metadata
record, so a duplicate hit is not free of parsing and writes. -/
theorem handleFile_dup_hit_can_parse :
    findDuplicate dupSampleState.items (Upload.mk "dup.cbz" [7] "") = some dupSampleItem ∧
    (handleFile (fun _ => ["p1.jpg"]) none (Upload.mk "dup.cbz" [7] "") 5
        dupSampleState).parses = 1 ∧
    (getComicMetadata "i1" (handleFile (fun _ => ["p1.jpg"]) none
        (Upload.mk "dup.cbz" [7] "") 5 dupSampleState).state.storage).map
      ComicBookM.totalPages = some 1 := by
  refine ⟨by decide, by decide, by decide⟩

/-- C4 (amended as the counterexample forces): the dedup lookup runs
before any parsing, and on a duplicate hit whose stored metadata already
records a nonzero page count, handleFile returns the existing item with
zero archive parses and writes nothing new: items, blobs, metadata and
page cache are unchanged and the comicFiles key set is preserved (only the
existing record's access fields are refreshed); but when the metadata
lacks a page count the archive is parsed once and the metadata rewritten. -/
theorem handleFile_dup_hit_fast_path (arch : Bytes → List String)
    (thumb : Option String) (f : Upload) (now : Nat) (s : ProcState)
    (item : FSItem) (comic : ComicBookM)
    (hs : isSupported f.name = true)
    (hdup : findDuplicate s.items f = some item)
    (hmeta : getComicMetadata item.id s.storage = some comic)
    (htp : comic.totalPages ≠ 0) :
    (handleFile arch thumb f now s).outcome = .openedExisting item.id ∧
    (handleFile arch thumb f now s).parses = 0 ∧
    (handleFile arch thumb f now s).state.items = s.items ∧
    (handleFile arch thumb f now s).state.blobs = s.blobs ∧
    (handleFile arch thumb f now s).state.nextId = s.nextId ∧
    (handleFile arch thumb f now s).state.storage.comicMetadata =
      s.storage.comicMetadata ∧
    (handleFile arch thumb f now s).state.storage.comicPages =
      s.storage.comicPages ∧
    (handleFile arch thumb f now s).state.storage.comicFiles.map Prod.fst =
      s.storage.comicFiles.map Prod.fst := by
  have hred : handleFile arch thumb f now s =
      { state := { s with storage := (updateLastAccessed item.id
            (some comic.currentPage) (some comic.totalPages) now s.storage) },
        parses := 0, outcome := .openedExisting item.id } := by
    simp [handleFile, hs, hdup, hmeta, htp]
  rw [hred]
  have hf := updateLastAccessed_frame item.id (some comic.currentPage)
    (some comic.totalPages) now s.storage
  exact ⟨rfl, rfl, rfl, rfl, rfl, hf.2.2, hf.2.1, hf.1⟩

/-- Metadata record with a recorded page count, for the fast-path witness. -/
def dupSampleMetaFull : ComicBookM :=
  { id := "i1", title := "dup", filename := "dup.cbz", pages := ["p1.jpg"],
    currentPage := 2, totalPages := 3, lastRead := 1, coverThumbnail := none }

/-- Orchestrator state with complete metadata for the fast-path witness. -/
def dupSampleStateFull : ProcState :=
  { items := [dupSampleItem], blobs := fun _ => none, nextId := 1,
    storage := StorageDB.mk [] [] [("i1", dupSampleMetaFull)] }

/-- C4 witness: the fast path at a concrete duplicate upload with complete
metadata. -/
theorem handleFile_dup_hit_fast_path_witness :
    (handleFile (fun _ => ["p1.jpg"]) none (Upload.mk "dup.cbz" [7] "") 5
        dupSampleStateFull).outcome = .openedExisting "i1" ∧
    (handleFile (fun _ => ["p1.jpg"]) none (Upload.mk "dup.cbz" [7] "") 5
        dupSampleStateFull).parses = 0 := by
  have h := handleFile_dup_hit_fast_path (fun _ => ["p1.jpg"]) none
    (Upload.mk "dup.cbz" [7] "") 5 dupSampleStateFull dupSampleItem
    dupSampleMetaFull (by decide) (by decide) (by decide) (by decide)
  exact ⟨h.1, h.2.1⟩

/-! Claim C2: refcount conservation for the content-addressable library. -/

theorem countRefs_eq_zero_of_not_ref (items : List (String × Bytes)) (h : Bytes)
    (hn : ∀ it ∈ items, it.2 ≠ h) : countRefs items h = 0 := by
  induction items with
  | nil => rfl
  | cons it rest ih =>
    have h1 : it.2 ≠ h := hn it (by simp)
    simp only [countRefs, if_neg h1, Nat.zero_add]
    exact ih fun x hx => hn x (by simp [hx])

theorem removeItem_countRefs (items : List (String × Bytes)) (id : String)
    (h : Bytes) (items1 : List (String × Bytes))
    (hr : removeItem items id = some (h, items1)) :
    countRefs items h = countRefs items1 h + 1 ∧
    ∀ h2 : Bytes, h2 ≠ h → countRefs items1 h2 = countRefs items h2 := by
  induction items generalizing items1 with
  | nil => simp [removeItem] at hr
  | cons it rest ih =>
    by_cases hid : it.1 = id
    · simp only [removeItem, if_pos hid, Option.some.injEq, Prod.mk.injEq] at hr
      obtain ⟨hh, hrest⟩ := hr
      subst hrest
      constructor
      · simp only [countRefs, if_pos hh]
        omega
      · intro h2 hne
        have : it.2 ≠ h2 := by rw [hh]; exact fun e => hne e.symm
        simp [countRefs, this]
    · simp only [removeItem, if_neg hid] at hr
      cases hrec : removeItem rest id with
      | none => rw [hrec] at hr; simp at hr
      | some pr =>
        rcases pr with ⟨h3, rest1⟩
        rw [hrec] at hr
        simp only [Option.some.injEq, Prod.mk.injEq] at hr
        obtain ⟨hh3, hitems⟩ := hr
        subst hh3
        subst hitems
        obtain ⟨ha, hb⟩ := ih rest1 hrec
        constructor
        · simp only [countRefs]
          omega
        · intro h2 hne
          simp only [countRefs]
          rw [hb h2 hne]

theorem casStep_preserves (s : Library) (op : CASOp)
    (hinv : BlobInvariant s) : BlobInvariant (casStep s op) := by
  cases op with
  | ingest content =>
    by_cases hc : (s.items.find? (fun it => it.2 == hashBytes content)).isSome
    · have hstep : casStep s (.ingest content) = s := by
        simp [casStep, hc]
      rw [hstep]
      exact hinv
    · have hnone : s.items.find? (fun it => it.2 == hashBytes content) = none :=
        Option.not_isSome_iff_eq_none.mp hc
      have hstep : casStep s (.ingest content) =
          { items := (toString s.nextId, hashBytes content) :: s.items,
            blobs := blobPut s.blobs (hashBytes content),
            nextId := s.nextId + 1 } := by
        simp [casStep, hnone]
      have hno : ∀ it ∈ s.items, it.2 ≠ hashBytes content := by
        intro it hit
        have := List.find?_eq_none.mp hnone it hit
        simpa using this
      have hcount : countRefs s.items (hashBytes content) = 0 :=
        countRefs_eq_zero_of_not_ref _ _ hno
      have hbnone : s.blobs (hashBytes content) = none := by
        cases hb : s.blobs (hashBytes content) with
        | none => rfl
        | some n =>
          obtain ⟨heq, hpos⟩ := (hinv (hashBytes content)).1 n hb
          rw [hcount] at heq
          omega
      rw [hstep]
      intro h2
      dsimp only
      by_cases he : h2 = hashBytes content
      · have hcnt2 : countRefs s.items h2 = 0 := by rw [he]; exact hcount
        constructor
        · intro n hn
          simp only [blobPut, if_pos he, hbnone] at hn
          simp only [countRefs, if_pos he.symm, Option.some.injEq] at hn ⊢
          rw [hcnt2]
          omega
        · intro hn
          simp only [blobPut, if_pos he, hbnone] at hn
          cases hn
      · have he2 : hashBytes content ≠ h2 := fun e => he e.symm
        constructor
        · intro n hn
          simp only [blobPut, if_neg he] at hn
          obtain ⟨heq, hpos⟩ := (hinv h2).1 n hn
          refine ⟨?_, hpos⟩
          rw [heq]
          simp [countRefs, if_neg he2]
        · intro hn
          simp only [blobPut, if_neg he] at hn
          have := (hinv h2).2 hn
          simp only [countRefs, if_neg he2]
          omega
  | remove id =>
    cases hrem : removeItem s.items id with
    | none =>
      have hstep : casStep s (.remove id) = s := by
        simp [casStep, hrem]
      rw [hstep]
      exact hinv
    | some pr =>
      rcases pr with ⟨h, items1⟩
      have hstep : casStep s (.remove id) =
          { items := items1, blobs := blobRelease s.blobs h,
            nextId := s.nextId } := by
        simp [casStep, hrem]
      obtain ⟨ha, hb⟩ := removeItem_countRefs s.items id h items1 hrem
      rw [hstep]
      intro h2
      dsimp only
      by_cases he : h2 = h
      · have hcgone : countRefs s.items h2 = countRefs items1 h2 + 1 := by
          rw [he]; exact ha
        have hsome : ∃ n : Int, s.blobs h2 = some n := by
          cases hbb : s.blobs h2 with
          | none =>
            have := (hinv h2).2 hbb
            omega
          | some n => exact ⟨n, rfl⟩
        obtain ⟨n, hn⟩ := hsome
        obtain ⟨heq, hpos⟩ := (hinv h2).1 n hn
        have hn2 : s.blobs h = some n := by rw [← he]; exact hn
        constructor
        · intro m hm
          simp only [blobRelease, if_pos he, hn2] at hm
          by_cases hz : n - 1 = 0
          · simp [hz] at hm
          · rw [if_neg hz] at hm
            simp only [Option.some.injEq] at hm
            constructor
            · omega
            · omega
        · intro hm
          simp only [blobRelease, if_pos he, hn2] at hm
          by_cases hz : n - 1 = 0
          · omega
          · simp [hz] at hm
      · constructor
        · intro m hm
          simp only [blobRelease, if_neg he] at hm
          obtain ⟨heq2, hpos2⟩ := (hinv h2).1 m hm
          refine ⟨?_, hpos2⟩
          rw [heq2, hb h2 he]
        · intro hm
          simp only [blobRelease, if_neg he] at hm
          have := (hinv h2).2 hm
          rw [hb h2 he]
          exact this

/-- C2: for every sequence of ingest and delete operations run from the
empty library, every persisted blob record's refCount equals the number
of items referencing its hash and is at least 1 (so never negative and
never a persisted zero), and a hash with no record has no referencing
item.  Modelled from the spec, as the refcounting store is absent from
the sources. -/
theorem refcount_conservation (ops : List CASOp) :
    BlobInvariant (casRun ops initLibrary) := by
  have hgen : ∀ (l : List CASOp) (s : Library),
      BlobInvariant s → BlobInvariant (casRun l s) := by
    intro l
    induction l with
    | nil => intro s hs; exact hs
    | cons op rest ih =>
      intro s hs
      exact ih (casStep s op) (casStep_preserves s op hs)
  refine hgen ops initLibrary ?_
  intro h
  exact ⟨fun n hn => by simp [initLibrary] at hn, fun _ => rfl⟩

/-! Claim C9: schema evolution. -/

/-- A stored record from an earlier schema version: file data present, but
no version stamp. -/
def legacyRecord : ComicRecord :=
  { id := "c1", filename := "x.cbz", fileBuffer := some [7], fileData := none,
    mimeType := some "application/zip", uploadDate := some 5,
    lastAccessed := some 6, fileSize := some 1, thumbnail := none,
    version := none, currentPage := some 0, totalPages := some 0,
    filter := none }

/-- C9 counterexample: init awaits migrateLegacyRecords, a cursor pass over
every record of the comicFiles store, and that pass rewrites the stored
legacy record (stamping version 2) at startup although no read has touched
it - contradicting the claim that the system never performs a single
blocking migration pass over all stored records. -/
theorem migration_pass_runs_at_startup :
    needsMigration legacyRecord = true ∧
    (alGet (migrateLegacyRecords 100
        (StorageDB.mk [("c1", legacyRecord)] [] [])).comicFiles "c1").map
      ComicRecord.version = some (some recordVersion) ∧
    migrateLegacyRecords 100 (StorageDB.mk [("c1", legacyRecord)] [] []) ≠
      StorageDB.mk [("c1", legacyRecord)] [] [] := by
  refine ⟨by decide, by decide, by decide⟩

/-- C9 (amended as the counterexample forces): schema evolution is additive
and upgrades do happen in place on read - normalizeRecord computes missing
fields from defaults, stamps the current version, and getComic persists
the repaired record - but in addition init runs migrateLegacyRecords, a
blocking migration pass over all stored comicFiles records that applies
the same normalization to every record flagged by needsMigration. -/
theorem schema_upgrade_lazy_and_at_startup (r : ComicRecord) (now : Nat)
    (v : StoredComic) (r2 : ComicRecord) (u : Bool)
    (h : normalizeRecord r now = some (v, r2, u)) :
    r2.version = some recordVersion ∧
    v.currentPage = r.currentPage.getD 0 ∧
    v.totalPages = r.totalPages.getD 0 ∧
    v.uploadDate = r.uploadDate.getD now ∧
    v.lastAccessed = r.lastAccessed.getD (r.uploadDate.getD now) ∧
    (u = true → ∀ db : StorageDB, alGet db.comicFiles r.id = some r →
      (getComic r.id now db).2.comicFiles = alPut db.comicFiles r2.id r2) ∧
    (∀ db : StorageDB, (migrateLegacyRecords now db).comicFiles =
      db.comicFiles.map (migrateEntry now)) := by
  have hpersist : u = true → ∀ db : StorageDB,
      alGet db.comicFiles r.id = some r →
      (getComic r.id now db).2.comicFiles = alPut db.comicFiles r2.id r2 := by
    intro hu db hdb
    simp [getComic, hdb, h, hu]
  rcases hfb : r.fileBuffer with _ | b
  · rcases hfd : r.fileData with _ | lb
    · rw [normalizeRecord, hfb, hfd] at h
      simp at h
    · rw [normalizeRecord, hfb, hfd] at h
      simp only [Option.some.injEq, Prod.mk.injEq] at h
      obtain ⟨hv, hr2, hu⟩ := h
      refine ⟨?_, ?_, ?_, ?_, ?_, hpersist, fun _ => rfl⟩
      · rw [← hr2]
        split <;> rfl
      · rw [← hv]
      · rw [← hv]
      · rw [← hv]
      · rw [← hv]
  · rw [normalizeRecord, hfb] at h
    simp only [Option.some.injEq, Prod.mk.injEq] at h
    obtain ⟨hv, hr2, hu⟩ := h
    refine ⟨?_, ?_, ?_, ?_, ?_, hpersist, fun _ => rfl⟩
    · rw [← hr2]
      split <;> rfl
    · rw [← hv]
    · rw [← hv]
    · rw [← hv]
    · rw [← hv]

/-- C9 witness: the lazy upgrade applied to the concrete legacy record. -/
theorem schema_upgrade_lazy_and_at_startup_witness :
    (normalizeRecord legacyRecord 100).map (fun t => t.2.1.version) =
      some (some recordVersion) := by
  rcases heq : normalizeRecord legacyRecord 100 with _ | ⟨v, r2, u⟩
  · exact absurd heq (by decide)
  · have h := schema_upgrade_lazy_and_at_startup legacyRecord 100 v r2 u heq
    simp [h.1]

/-! Claim C6: natural filename order of openArchive. -/

theorem tokCmp_self (t : NatTok) : tokCmp t t = Ordering.eq := by
  cases t <;> simp [tokCmp, Nat.compare_eq_eq]

theorem tokCmp_swap (a b : NatTok) : tokCmp b a = (tokCmp a b).swap := by
  cases a <;> cases b
  · exact (Nat.compare_swap _ _).symm
  · rfl
  · rfl
  · exact (Nat.compare_swap _ _).symm

theorem tokCmp_congr_left : ∀ {a b : NatTok}, tokCmp a b = Ordering.eq →
    ∀ c : NatTok, tokCmp a c = tokCmp b c
  | .num as, .num bs, h, c => by
    simp only [tokCmp, Nat.compare_eq_eq] at h
    cases c <;> simp [tokCmp, h]
  | .num _, .sym _, h, _ => by simp [tokCmp] at h
  | .sym _, .num _, h, _ => by simp [tokCmp] at h
  | .sym x, .sym y, h, c => by
    simp only [tokCmp, Nat.compare_eq_eq] at h
    cases c <;> simp [tokCmp, h]

theorem tokCmp_congr_right {b c : NatTok} (h : tokCmp b c = Ordering.eq)
    (a : NatTok) : tokCmp a b = tokCmp a c := by
  have h2 := tokCmp_congr_left h a
  rw [tokCmp_swap a b, tokCmp_swap a c] at h2
  have h3 := congrArg Ordering.swap h2
  rwa [Ordering.swap_swap, Ordering.swap_swap] at h3

theorem tokCmp_lt_trans : ∀ {a b c : NatTok}, tokCmp a b = Ordering.lt →
    tokCmp b c = Ordering.lt → tokCmp a c = Ordering.lt
  | .num _, .num _, .num _, h1, h2 => by
    simp only [tokCmp, Nat.compare_eq_lt] at h1 h2 ⊢
    omega
  | .num _, .num _, .sym _, _, _ => rfl
  | .num _, .sym _, .sym _, _, _ => rfl
  | .num _, .sym _, .num _, _, h2 => by simp [tokCmp] at h2
  | .sym _, .num _, _, h1, _ => by simp [tokCmp] at h1
  | .sym _, .sym _, .num _, _, h2 => by simp [tokCmp] at h2
  | .sym _, .sym _, .sym _, h1, h2 => by
    simp only [tokCmp, Nat.compare_eq_lt] at h1 h2 ⊢
    omega

theorem toksCmp_swap : ∀ u v : List NatTok, toksCmp v u = (toksCmp u v).swap
  | [], [] => rfl
  | [], _ :: _ => rfl
  | _ :: _, [] => rfl
  | x :: xs, y :: ys => by
    simp only [toksCmp]
    rw [tokCmp_swap x y]
    cases hxy : tokCmp x y with
    | lt => rfl
    | gt => rfl
    | eq => simpa using toksCmp_swap xs ys

theorem toksCmp_le_trans : ∀ u v w : List NatTok,
    toksCmp u v ≠ Ordering.gt → toksCmp v w ≠ Ordering.gt →
    toksCmp u w ≠ Ordering.gt
  | [], _, w, _, _ => by cases w <;> simp [toksCmp]
  | _ :: _, [], _, h1, _ => by simp [toksCmp] at h1
  | _ :: _, _ :: _, [], _, h2 => by simp [toksCmp] at h2
  | x :: xs, y :: ys, z :: zs, h1, h2 => by
    simp only [toksCmp] at h1 h2 ⊢
    cases hxy : tokCmp x y with
    | gt => rw [hxy] at h1; exact absurd rfl h1
    | lt =>
      cases hyz : tokCmp y z with
      | gt => rw [hyz] at h2; exact absurd rfl h2
      | lt =>
        rw [tokCmp_lt_trans hxy hyz]
        simp
      | eq =>
        rw [← tokCmp_congr_right hyz x, hxy]
        simp
    | eq =>
      rw [hxy] at h1
      cases hyz : tokCmp y z with
      | gt => rw [hyz] at h2; exact absurd rfl h2
      | lt =>
        rw [tokCmp_congr_left hxy z, hyz]
        simp
      | eq =>
        rw [hyz] at h2
        rw [tokCmp_congr_left hxy z, hyz]
        exact toksCmp_le_trans xs ys zs h1 h2

theorem naturalLe_eq_true_iff (a b : String) :
    naturalLe a b = true ↔ naturalCompare a b ≠ Ordering.gt := by
  unfold naturalLe
  cases naturalCompare a b <;> decide

theorem naturalCompare_swap (a b : String) :
    naturalCompare b a = (naturalCompare a b).swap :=
  toksCmp_swap _ _

theorem naturalLe_total (a b : String) :
    naturalLe a b = true ∨ naturalLe b a = true := by
  rw [naturalLe_eq_true_iff, naturalLe_eq_true_iff]
  have hsw := naturalCompare_swap a b
  cases h : naturalCompare a b with
  | lt => left; simp [h]
  | eq => left; simp [h]
  | gt =>
    right
    rw [hsw, h]
    decide

theorem naturalLe_trans {a b c : String} (h1 : naturalLe a b = true)
    (h2 : naturalLe b c = true) : naturalLe a c = true := by
  rw [naturalLe_eq_true_iff] at h1 h2 ⊢
  exact toksCmp_le_trans _ _ _ h1 h2

instance : IsTotal String NaturalLeP := ⟨naturalLe_total⟩

instance : IsTrans String NaturalLeP := ⟨fun _ _ _ => naturalLe_trans⟩

theorem toksCmp_append_left : ∀ (t u v : List NatTok),
    toksCmp (t ++ u) (t ++ v) = toksCmp u v
  | [], _, _ => rfl
  | x :: xs, u, v => by
    simp only [List.cons_append, toksCmp, tokCmp_self]
    exact toksCmp_append_left xs u v

theorem tokenize_cons_digit_num (c : Char) (rest : List Char) (ds : List Char)
    (toks : List NatTok) (hc : c.isDigit = true)
    (h : tokenize rest = NatTok.num ds :: toks) :
    tokenize (c :: rest) = NatTok.num (c :: ds) :: toks := by
  simp [tokenize, hc, h]

theorem tokenize_cons_digit_other (c : Char) (rest : List Char)
    (hc : c.isDigit = true)
    (h : ∀ ds toks, tokenize rest ≠ NatTok.num ds :: toks) :
    tokenize (c :: rest) = NatTok.num [c] :: tokenize rest := by
  cases htr : tokenize rest with
  | nil => simp [tokenize, hc, htr]
  | cons t ts =>
    cases t with
    | num ds => exact absurd htr (h ds ts)
    | sym x => simp [tokenize, hc, htr]

theorem tokenize_cons_nondigit (c : Char) (rest : List Char)
    (hc : c.isDigit = false) :
    tokenize (c :: rest) = NatTok.sym c.toLower :: tokenize rest := by
  simp [tokenize, hc]

theorem tokenize_ne_nil (c : Char) (rest : List Char) :
    tokenize (c :: rest) ≠ [] := by
  by_cases hd : c.isDigit
  · simp only [tokenize, hd, if_true]
    cases tokenize rest with
    | nil => simp
    | cons t ts => cases t <;> simp
  · simp [tokenize, hd]

theorem tokenize_append : ∀ (p q : List Char),
    p.getLast?.all (fun c => !c.isDigit) →
    tokenize (p ++ q) = tokenize p ++ tokenize q
  | [], _, _ => by simp [tokenize]
  | [c], q, hp => by
    have hc : c.isDigit = false := by simpa using hp
    simp [tokenize, hc]
  | c :: c2 :: p', q, hp => by
    have hp2 : (c2 :: p').getLast?.all (fun x => !x.isDigit) := by
      rwa [List.getLast?_cons_cons] at hp
    have ih := tokenize_append (c2 :: p') q hp2
    by_cases hd : c.isDigit
    · cases htp : tokenize (c2 :: p') with
      | nil => exact absurd htp (tokenize_ne_nil _ _)
      | cons t ts =>
        have ih3 : tokenize (c2 :: p' ++ q) = t :: (ts ++ tokenize q) := by
          rw [show c2 :: p' ++ q = (c2 :: p') ++ q from rfl, ih, htp]
          rfl
        cases t with
        | num ds =>
          rw [show (c :: c2 :: p') ++ q = c :: (c2 :: p' ++ q) from rfl,
            tokenize_cons_digit_num c _ ds (ts ++ tokenize q) hd ih3,
            tokenize_cons_digit_num c _ ds ts hd htp]
          rfl
        | sym x =>
          have hnot : ∀ ds toks,
              tokenize (c2 :: p' ++ q) ≠ NatTok.num ds :: toks := by
            intro ds toks hcontra
            rw [ih3] at hcontra
            cases hcontra
          have hnot2 : ∀ ds toks,
              tokenize (c2 :: p') ≠ NatTok.num ds :: toks := by
            intro ds toks hcontra
            rw [htp] at hcontra
            cases hcontra
          rw [show (c :: c2 :: p') ++ q = c :: (c2 :: p' ++ q) from rfl,
            tokenize_cons_digit_other c _ hd hnot,
            tokenize_cons_digit_other c _ hd hnot2, ih3, htp]
          rfl
    · have hd2 : c.isDigit = false := by simpa using hd
      rw [show (c :: c2 :: p') ++ q = c :: (c2 :: p' ++ q) from rfl,
        tokenize_cons_nondigit c _ hd2, tokenize_cons_nondigit c _ hd2,
        show c2 :: p' ++ q = (c2 :: p') ++ q from rfl, ih]
      rfl

theorem tokenize_head_not_num (s : List Char)
    (hs : s.head?.all (fun c => !c.isDigit)) :
    ∀ ds toks, tokenize s ≠ NatTok.num ds :: toks := by
  cases s with
  | nil => intro ds toks h; simp [tokenize] at h
  | cons c rest =>
    have hc : c.isDigit = false := by simpa using hs
    intro ds toks h
    rw [tokenize_cons_nondigit c rest hc] at h
    cases h

theorem tokenize_digit_run : ∀ (ds s : List Char), ds ≠ [] →
    (∀ c ∈ ds, c.isDigit) → s.head?.all (fun c => !c.isDigit) →
    tokenize (ds ++ s) = NatTok.num ds :: tokenize s
  | [], _, hne, _, _ => absurd rfl hne
  | [c], s, _, hdig, hs => by
    have hc : c.isDigit = true := by simpa using hdig c (by simp)
    simpa using tokenize_cons_digit_other c s hc (tokenize_head_not_num s hs)
  | c :: c2 :: ds', s, _, hdig, hs => by
    have hc : c.isDigit = true := by simpa using hdig c (by simp)
    have ih := tokenize_digit_run (c2 :: ds') s (by simp)
      (fun x hx => hdig x (by simp [hx])) hs
    simpa using tokenize_cons_digit_num c ((c2 :: ds') ++ s) (c2 :: ds')
      (tokenize s) hc ih

/-- C6: openArchive returns exactly the qualifying image entries, sorted by
the natural comparator: the output is a permutation of the image-filtered
input and is sorted under the natural order; names sharing a prefix and a
suffix around an embedded digit run are ordered by the run's numeric
value; and the archive page1.jpg, page10.jpg, page2.jpg comes out in the
order page1, page2, page10. -/
theorem openArchive_natural_order (p s1 s2 ds1 ds2 : List Char)
    (hp : p.getLast?.all (fun c => !c.isDigit))
    (hne1 : ds1 ≠ []) (hdig1 : ∀ c ∈ ds1, c.isDigit)
    (hne2 : ds2 ≠ []) (hdig2 : ∀ c ∈ ds2, c.isDigit)
    (hs1 : s1.head?.all (fun c => !c.isDigit))
    (hs2 : s2.head?.all (fun c => !c.isDigit))
    (hlt : digitsVal ds1 < digitsVal ds2) :
    naturalCompare (String.mk (p ++ ds1 ++ s1)) (String.mk (p ++ ds2 ++ s2)) =
      Ordering.lt ∧
    (∀ entries : List String,
      (openArchive entries).Perm (entries.filter isImageFile)) ∧
    (∀ entries : List String, List.Sorted NaturalLeP (openArchive entries)) ∧
    openArchive ["page1.jpg", "page10.jpg", "page2.jpg"] =
      ["page1.jpg", "page2.jpg", "page10.jpg"] := by
  refine ⟨?_, ?_, ?_, by decide⟩
  · show toksCmp (tokenize (p ++ ds1 ++ s1)) (tokenize (p ++ ds2 ++ s2)) =
      Ordering.lt
    rw [List.append_assoc p ds1 s1, List.append_assoc p ds2 s2,
      tokenize_append p (ds1 ++ s1) hp, tokenize_append p (ds2 ++ s2) hp,
      tokenize_digit_run ds1 s1 hne1 hdig1 hs1,
      tokenize_digit_run ds2 s2 hne2 hdig2 hs2,
      toksCmp_append_left]
    simp only [toksCmp, tokCmp, Nat.compare_eq_lt.mpr hlt]
  · intro entries
    exact List.perm_insertionSort NaturalLeP (entries.filter isImageFile)
  · intro entries
    exact List.sorted_insertionSort NaturalLeP (entries.filter isImageFile)

/-- C6 witness: the ordering statement at the concrete digit runs 2 and 10
around the prefix page and the suffix .jpg. -/
theorem openArchive_natural_order_witness :
    naturalCompare (String.mk ("page".data ++ ['2'] ++ ".jpg".data))
      (String.mk ("page".data ++ ['1', '0'] ++ ".jpg".data)) = Ordering.lt ∧
    openArchive ["page1.jpg", "page10.jpg", "page2.jpg"] =
      ["page1.jpg", "page2.jpg", "page10.jpg"] := by
  have h := openArchive_natural_order "page".data ".jpg".data ".jpg".data
    ['2'] ['1', '0'] (by decide) (by decide) (by decide) (by decide)
    (by decide) (by decide) (by decide) (by decide)
  exact ⟨h.1, h.2.2.2⟩

end ComicReader
